import Mathlib

/-!
Verification of the run-streaming and checkpoint-chain subsystem of the
minimal-chat backend.  The definitions below are a shallow embedding of
`backend/services/streaming.py` (class `EchoStreamer`),
`backend/services/storage.py` (class `InMemoryStorage`) and
`backend/data_utils.py` (`make_checkpoint`, `make_msg`).

Modelling conventions:
* Python strings are embedded as `List Char`; fixed tags that are only
  compared for equality (roles, statuses, SSE event names) stay `String`.
* `now_iso()` timestamps are impure; they are passed in as `Nat` parameters
  (`t0` for construction time, `tFin` for finalization time).
* Random UUIDs (message ids, run ids) are irrelevant to every claim about
  this subsystem; run ids are parameters, message ids are omitted.
* JSON blob fields that no code of the subsystem ever reads
  (`additional_kwargs`, `tool_calls`, `metadata` payload blobs, ...) are
  omitted from the records.
* `copy.deepcopy` of a list of records is the identity on values; the pure
  model works with values, and the one aliasing question (claim about
  `make_checkpoint` copying) is settled separately on an explicit heap
  model at the end of the definitions section.
-/

/-- Whitespace test used by Python `str.split()`: the code points CPython
treats as whitespace (tab, newline, vertical tab, form feed, carriage
return, the file/group/record/unit separators, space, next line, no-break
space, ogham space mark, the U+2000 .. U+200A spaces, line and paragraph
separators, narrow no-break space, medium mathematical space, ideographic
space). -/
def isWs (c : Char) : Bool :=
  ([9, 10, 11, 12, 13, 28, 29, 30, 31, 32, 133, 160, 5760,
    8192, 8193, 8194, 8195, 8196, 8197, 8198, 8199, 8200, 8201, 8202,
    8232, 8233, 8239, 8287, 12288] : List Nat).contains c.toNat

/-- Helper for `splitWs`: `acc` is the reversed current partial word. -/
def splitWsAux : List Char → List Char → List (List Char)
  | [], acc => if acc = [] then [] else [acc.reverse]
  | c :: cs, acc =>
    if isWs c then
      if acc = [] then splitWsAux cs [] else acc.reverse :: splitWsAux cs []
    else splitWsAux cs (c :: acc)

/-- Embedding of Python `text.split()` with no separator argument: split on
runs of whitespace, discarding empty pieces. -/
def splitWs (s : List Char) : List (List Char) :=
  splitWsAux s []

/-- The placeholder phrase used for empty input
(`"I didn_t catch that!"` with an apostrophe, `Char.ofNat 39`). -/
def placeholderText : List Char :=
  ['I', ' ', 'd', 'i', 'd', 'n', Char.ofNat 39, 't', ' ',
   'c', 'a', 't', 'c', 'h', ' ', 't', 'h', 'a', 't', '!']

/-- `streaming.py` lines 55-59: the word list streamed for a given input
text.  `words = text.split()`; if that is empty and the text is the empty
string the placeholder is used; if it is empty but the text is non-empty
(whitespace-only text) the raw text itself becomes the single word. -/
def echoWords (text : List Char) : List (List Char) :=
  let words := splitWs text
  if words = [] ∧ text = [] then [placeholderText]
  else if words = [] ∧ text ≠ [] then [text]
  else words

/-- `streaming.py` line 62: `chunk = word + " " if word != words[-1] else
word`.  Note the comparison is with the *value* `words[-1]`, not with the
last position. -/
def echoChunks (text : List Char) : List (List Char) :=
  let words := echoWords text
  words.map (fun w => if w ≠ words.getLastD [] then w ++ [' '] else w)

/-- Mock usage metadata attached at finalization
(`streaming.py` lines 132-138). -/
structure Usage where
  prompt_tokens : Nat
  completion_tokens : Nat
  total_tokens : Nat
deriving DecidableEq, Inhabited

/-- A conversation message (`data_utils.make_msg`).  `response_metadata`
is the empty object until finalization; `none` models the empty object. -/
structure Msg where
  role : String
  content : List Char
  type : String
  response_metadata : Option Usage
  created_at : Nat
deriving DecidableEq, Inhabited

/-- `data_utils.make_msg`. -/
def make_msg (role : String) (content : List Char) (t : Nat) : Msg :=
  { role := role
    content := content
    type := if role = "user" then "human" else "ai"
    response_metadata := none
    created_at := t }

/-- The `{thread_id, checkpoint_id}` pair used for the `checkpoint` and
`parent_checkpoint` fields of a checkpoint. -/
structure CkptRef where
  thread_id : List Char
  checkpoint_id : List Char
deriving DecidableEq, Inhabited

/-- A checkpoint (`data_utils.make_checkpoint`).  The `updated_at` key is
absent until `_finalize_data` adds it, hence `Option Nat`. -/
structure Checkpoint where
  messages : List Msg
  step : Int
  run_id : List Char
  created_at : Nat
  checkpoint : CkptRef
  parent_checkpoint : Option CkptRef
  updated_at : Option Nat
deriving DecidableEq, Inhabited

/-- `data_utils.make_checkpoint`.  The Python source builds
`parent_checkpoint` as `{...} if parent_checkpoint_id else None`, so a
`None` *or empty* parent id yields a null parent (Python truthiness). -/
def make_checkpoint (checkpoint_id : List Char)
    (parent_checkpoint_id : Option (List Char))
    (thread_id run_id : List Char) (step : Int) (messages : List Msg)
    (t : Nat) : Checkpoint :=
  { messages := messages
    step := step
    run_id := run_id
    created_at := t
    checkpoint := ⟨thread_id, checkpoint_id⟩
    parent_checkpoint :=
      match parent_checkpoint_id with
      | none => none
      | some p => if p = [] then none else some ⟨thread_id, p⟩
    updated_at := none }

/-- The genesis checkpoint registered by `InMemoryStorage.create_thread`
(`storage.py` lines 83-91): fresh UUID id, null parent, step `-1`,
empty message list. -/
def create_thread_checkpoint (genesis_id thread_id : List Char) (t : Nat) :
    Checkpoint :=
  make_checkpoint genesis_id none thread_id
    ['<', 'i', 'n', 'i', 't', 'i', 'a', 'l', '>'] (-1) [] t

/-- The run record built in `main.py stream_run` (JSON blob fields that the
streamer never reads are omitted). -/
structure Run where
  run_id : List Char
  thread_id : List Char
  status : String
  created_at : Nat
  updated_at : Nat
deriving DecidableEq, Inhabited

/-- Payload of one SSE frame.  Each constructor records exactly the fields
the corresponding `sse(...)` call in `streaming.py` serializes. -/
inductive Payload where
  | keepalive
  | metadataP (run_id thread_id : List Char)
  | addRun (r : Run)
  | addCheckpoint (c : Checkpoint)
  | addToken (msgIndex : Nat) (chunk : List Char)
  | replaceRun (r : Run)
  | replaceCheckpoint (c : Checkpoint)
  | streamEndOk (run_id : List Char) (final_checkpoint : Checkpoint)
  | streamEndErr (run_id : List Char)
  | errorInfo (run_id : List Char) (message : List Char)
deriving DecidableEq, Inhabited

/-- One wire frame: the optional `id:` line, the `event:` line, and the
payload.  The raw keepalive comment `":\n\n"` is the frame
`⟨none, ":", Payload.keepalive⟩`. -/
structure Frame where
  id : Option Nat
  event : String
  data : Payload
deriving DecidableEq, Inhabited

/-- Mutable state touched by one stream: the checkpoint list of the target
thread (newest first, `db.threads_checkpoint_list[thread_id]`), the run
record (`self.run_data`), the emitted frames, and the SSE id counter
(`self.event_id`, initialized to 1). -/
structure StreamState where
  checkpoints : List Checkpoint
  run : Run
  frames : List Frame
  nextId : Nat
deriving DecidableEq, Inhabited

/-- `EchoStreamer._next_id` followed by an emission: the frame carries the
current counter value and the counter is incremented. -/
def emit (ev : String) (p : Payload) (s : StreamState) : StreamState :=
  { s with frames := s.frames ++ [⟨some s.nextId, ev, p⟩]
           nextId := s.nextId + 1 }

/-- `messages[-1]["content"] = t` (no-op on an empty list, which is
unreachable: the step-1 checkpoint always has at least one message). -/
def setLastContent (t : List Char) : List Msg → List Msg
  | [] => []
  | [m] => [{ m with content := t }]
  | m :: m' :: ms => m :: setLastContent t (m' :: ms)

/-- `messages[-1]["response_metadata"] = {...usage...}` (same convention). -/
def setLastMeta (u : Usage) : List Msg → List Msg
  | [] => []
  | [m] => [{ m with response_metadata := some u }]
  | m :: m' :: ms => m :: setLastMeta u (m' :: ms)

/-- Update the newest (front) checkpoint of the store in place. -/
def updateHead (f : Checkpoint → Checkpoint) : List Checkpoint → List Checkpoint
  | [] => []
  | c :: rest => f c :: rest

/-- The per-stream context: constructor arguments of `EchoStreamer` plus
the two timestamp values. -/
structure Ctx where
  thread_id : List Char
  run_id : List Char
  text : List Char
  t0 : Nat
  tFin : Nat
deriving DecidableEq, Inhabited

/-- `EchoStreamer._create_step_0_checkpoint`: id `run_id:step_0`, parent
the latest checkpoint captured at construction, messages of the parent
(deep-copied) plus a new user message holding the input text. -/
def mkStep0 (ctx : Ctx) (latest : Checkpoint) : Checkpoint :=
  make_checkpoint (ctx.run_id ++ [':', 's', 't', 'e', 'p', '_', '0'])
    (some latest.checkpoint.checkpoint_id) ctx.thread_id ctx.run_id 0
    (latest.messages ++ [make_msg "user" ctx.text ctx.t0]) ctx.t0

/-- `EchoStreamer._create_step_1_checkpoint`: id `run_id:step_1`, parent
step-0, messages of step-0 (deep-copied) plus an empty assistant message. -/
def mkStep1 (ctx : Ctx) (step0 : Checkpoint) : Checkpoint :=
  make_checkpoint (ctx.run_id ++ [':', 's', 't', 'e', 'p', '_', '1'])
    (some step0.checkpoint.checkpoint_id) ctx.thread_id ctx.run_id 1
    (step0.messages ++ [make_msg "assistant" [] ctx.t0]) ctx.t0

/-- `_finalize_data`, run part: unconditionally set status `success` and
refresh `updated_at` (there is no terminal-state guard in the source). -/
def finalizeRun (t : Nat) (r : Run) : Run :=
  { r with status := "success", updated_at := t }

/-- `_finalize_data`, checkpoint part: refresh `updated_at` and overwrite
the last message's `response_metadata` with the mock usage block
(`prompt_tokens` fixed at 5). -/
def finalizeCkpt (t : Nat) (num_words : Nat) (c : Checkpoint) : Checkpoint :=
  { c with updated_at := some t
           messages := setLastMeta ⟨5, num_words, 5 + num_words⟩ c.messages }

/-- The five frames/effects before the token loop: keepalive comment,
`metadata` event, append-run patch, then build/register/emit the step-0
and step-1 checkpoints (`stream_response` lines 37-48). -/
def setupActions (ctx : Ctx) (step0 step1 : Checkpoint) :
    List (StreamState → StreamState) :=
  [fun s => { s with frames := s.frames ++ [⟨none, ":", Payload.keepalive⟩] },
   fun s => emit "metadata" (Payload.metadataP ctx.run_id ctx.thread_id) s,
   fun s => emit "data" (Payload.addRun s.run) s,
   fun s => emit "data" (Payload.addCheckpoint step0)
     { s with checkpoints := step0 :: s.checkpoints },
   fun s => emit "data" (Payload.addCheckpoint step1)
     { s with checkpoints := step1 :: s.checkpoints }]

/-- One iteration of the token loop (`stream_response` lines 61-72): emit
the incremental chunk, then overwrite the content of the last message of
the store's latest checkpoint with the accumulated text `acc`. -/
def tokenAction (idx : Nat) (chunk acc : List Char) (s : StreamState) :
    StreamState :=
  let s1 := emit "data" (Payload.addToken idx chunk) s
  { s1 with checkpoints := updateHead (fun c => { c with messages := setLastContent acc c.messages }) s1.checkpoints }

/-- The token loop actions, one per chunk; `acc` is the content
accumulated so far (`"".join(full_content_chunks)`). -/
def tokenActionsFrom (idx : Nat) : List Char → List (List Char) →
    List (StreamState → StreamState)
  | _, [] => []
  | acc, c :: cs => tokenAction idx c (acc ++ c) :: tokenActionsFrom idx (acc ++ c) cs

/-- The four effects after the token loop (`stream_response` lines 74-80):
`_finalize_data` on the run and the store's latest checkpoint, then the
replace-run, replace-checkpoint and `stream_end` events. -/
def finishActions (ctx : Ctx) (num_words : Nat) :
    List (StreamState → StreamState) :=
  [fun s => { s with run := finalizeRun ctx.tFin s.run,
                     checkpoints := updateHead (finalizeCkpt ctx.tFin num_words) s.checkpoints },
   fun s => emit "data" (Payload.replaceRun s.run) s,
   fun s => emit "data" (Payload.replaceCheckpoint (s.checkpoints.headD default)) s,
   fun s => emit "stream_end"
     (Payload.streamEndOk ctx.run_id (s.checkpoints.headD default)) s]

/-- The full happy-path action sequence of `stream_response`, grouped so
that the prefix before `finishActions` is everything up to (and excluding)
finalization.  The token path index is
`len(step_1_ckpt["values"]["messages"]) - 1`. -/
def actions (ctx : Ctx) (latest : Checkpoint) :
    List (StreamState → StreamState) :=
  let step0 := mkStep0 ctx latest
  let step1 := mkStep1 ctx step0
  (setupActions ctx step0 step1 ++
     tokenActionsFrom (step1.messages.length - 1) [] (echoChunks ctx.text)) ++
    finishActions ctx (echoWords ctx.text).length

/-- Run a list of state transformers in order. -/
def runActions (acts : List (StreamState → StreamState)) (s : StreamState) :
    StreamState :=
  acts.foldl (fun st a => a st) s

/-- Initial stream state: the thread's checkpoint list, the fresh run
record, no frames, event id counter at 1. -/
def initState (run : Run) (ckpts : List Checkpoint) : StreamState :=
  { checkpoints := ckpts, run := run, frames := [], nextId := 1 }

/-- A full successful stream.  `EchoStreamer.__init__` captures
`thread_checkpoints[0]` as the latest checkpoint. -/
def streamSuccess (ctx : Ctx) (run : Run) (ckpts : List Checkpoint) :
    StreamState :=
  runActions (actions ctx (ckpts.headD default)) (initState run ckpts)

/-- The state after the first `f` actions of a stream (used for fault and
disconnect injection: the fault strikes before action `f` executes). -/
def prefixState (ctx : Ctx) (run : Run) (ckpts : List Checkpoint) (f : Nat) :
    StreamState :=
  runActions ((actions ctx (ckpts.headD default)).take f) (initState run ckpts)

/-- The `except Exception` handler (`stream_response` lines 85-89): emit an
`error` event carrying the current `event_id`, increment it once, then emit
a `stream_end` event with the new id.  The run record is not touched. -/
def errorHandler (run_id msg : List Char) (s : StreamState) : StreamState :=
  let s1 : StreamState :=
    { s with frames := s.frames ++ [⟨some s.nextId, "error", Payload.errorInfo run_id msg⟩]
             nextId := s.nextId + 1 }
  { s1 with frames := s1.frames ++ [⟨some s1.nextId, "stream_end", Payload.streamEndErr run_id⟩] }

/-- A stream interrupted by a non-disconnect fault before action `f`. -/
def streamFault (ctx : Ctx) (run : Run) (ckpts : List Checkpoint) (f : Nat)
    (msg : List Char) : StreamState :=
  errorHandler ctx.run_id msg (prefixState ctx run ckpts f)

/-- A stream interrupted by a client disconnect before action `f`: the
`except BrokenPipeError` handler just returns (`stream_response` 82-84). -/
def streamDisconnect (ctx : Ctx) (run : Run) (ckpts : List Checkpoint)
    (f : Nat) : StreamState :=
  prefixState ctx run ckpts f

/-- Extract the chunk of a token frame, if any. -/
def chunkOfFrame : Frame → Option (List Char)
  | ⟨_, _, Payload.addToken _ c⟩ => some c
  | _ => none

/-- All token chunks emitted during a stream, in order. -/
def tokenChunksOf (s : StreamState) : List (List Char) :=
  s.frames.filterMap chunkOfFrame

/-- The ids carried by the frames of a stream, in emission order. -/
def frameIds (s : StreamState) : List Nat :=
  s.frames.filterMap Frame.id

/-- `[a, a+1, ..., a+n-1]`. -/
def idSeq (a n : Nat) : List Nat :=
  (List.range n).map (fun i => a + i)

/-- The ids are exactly `1, 2, ..., len` in order: strictly increasing,
starting at 1, with no gaps. -/
def IdsFromOne (s : StreamState) : Prop :=
  frameIds s = idSeq 1 (frameIds s).length

/-- Number of checkpoints whose `parent_checkpoint` is null. -/
def rootCount (l : List Checkpoint) : Nat :=
  (l.filter (fun c => c.parent_checkpoint = none)).length

/-- Every non-root checkpoint's parent id matches the id of a previously
registered checkpoint, i.e. one further back in the newest-first list. -/
def ParentsOk : List Checkpoint → Prop
  | [] => True
  | c :: rest =>
    (∀ p, c.parent_checkpoint = some p →
      ∃ d ∈ rest, d.checkpoint.checkpoint_id = p.checkpoint_id) ∧ ParentsOk rest

/-- Auxiliary invariant: every registered checkpoint has a non-empty id
(UUIDs and `run_id:step_N` ids are never the empty string). -/
def IdsNonNil (l : List Checkpoint) : Prop :=
  ∀ c ∈ l, c.checkpoint.checkpoint_id ≠ []

/-- The checkpoint-chain store invariant. -/
def StoreInv (l : List Checkpoint) : Prop :=
  rootCount l = 1 ∧ ParentsOk l ∧ IdsNonNil l

/-- The thread's checkpoint list after one full successful run. -/
def checkpointsAfterRun (ctx : Ctx) (r : Run) (l : List Checkpoint) :
    List Checkpoint :=
  (streamSuccess ctx r l).checkpoints

/-- The thread's checkpoint list after a sequence of successful runs. -/
def checkpointsAfterRuns : List (Ctx × Run) → List Checkpoint → List Checkpoint
  | [], l => l
  | p :: rest, l => checkpointsAfterRuns rest (checkpointsAfterRun p.1 p.2 l)

/-- Join words with single spaces (the shape of input for which the chunk
stream reproduces the text exactly). -/
def joinWords : List (List Char) → List Char
  | [] => []
  | [w] => w
  | w :: w' :: ws => w ++ ' ' :: joinWords (w' :: ws)

/-- The frames produced by the token loop, for the success-path
characterization lemma. -/
def tokenFramesFrom (idx : Nat) : List (List Char) → Nat → List Frame
  | [], _ => []
  | c :: cs, n => ⟨some n, "data", Payload.addToken idx c⟩ :: tokenFramesFrom idx cs (n + 1)

/-- Closed form of the final (latest) checkpoint after a successful stream:
the step-1 checkpoint with its last message's content set to the
concatenation of all chunks, then finalized with the mock usage block. -/
def finalHeadCkpt (ctx : Ctx) (latest : Checkpoint) : Checkpoint :=
  let step1 := mkStep1 ctx (mkStep0 ctx latest)
  finalizeCkpt ctx.tFin (echoWords ctx.text).length
    { step1 with messages := setLastContent (echoChunks ctx.text).flatten step1.messages }

/-- Invariant relating the emitted ids to the id counter: the ids emitted
so far are exactly `1 .. nextId - 1`. -/
def IdInv (s : StreamState) : Prop :=
  frameIds s = idSeq 1 (s.nextId - 1) ∧ 1 ≤ s.nextId

/-- Frames carrying no `error` or `stream_end` event. -/
def NoTerminalFrames (s : StreamState) : Prop :=
  ∀ fr ∈ s.frames, fr.event ≠ "error" ∧ fr.event ≠ "stream_end"

/-!
Heap model for the aliasing question about `make_checkpoint`.  In Python a
list value is a reference into the heap; `make_checkpoint` receives such a
reference for its `messages` argument and stores it as
`"values": {"messages": messages}` without copying.  The heap is a list of
message lists and a reference is an index into it.
-/

/-- A checkpoint cell whose `values.messages` holds a heap reference (only
the fields relevant to the aliasing question are kept). -/
structure CheckpointCell where
  checkpoint_id : List Char
  parent_checkpoint : Option (List Char)
  messagesRef : Nat
deriving DecidableEq, Inhabited

/-- `data_utils.make_checkpoint` on the heap model: the `messages`
reference is stored as-is (`"values": {"messages": messages}`). -/
def make_checkpoint_heap (checkpoint_id : List Char)
    (parent_checkpoint_id : Option (List Char)) (messages : Nat) :
    CheckpointCell :=
  ⟨checkpoint_id, parent_checkpoint_id, messages⟩

/-- Dereference a checkpoint's message list through the heap. -/
def readMsgs (h : List (List Msg)) (c : CheckpointCell) : List Msg :=
  h.getD c.messagesRef []

/-- In-place mutation of the list behind reference `r` (what the token
loop and any caller-side mutation do). -/
def writeList (h : List (List Msg)) (r : Nat) (v : List Msg) :
    List (List Msg) :=
  h.set r v

/-- `_create_step_0_checkpoint`, caller side: `copy.deepcopy` of the
parent's messages allocates a *fresh* list (a fresh reference) holding the
copied messages plus the appended user message; returns the new heap and
the fresh reference. -/
def step0Alloc (h : List (List Msg)) (parentRef : Nat) (userMsg : Msg) :
    List (List Msg) × Nat :=
  (h ++ [h.getD parentRef [] ++ [userMsg]], h.length)

/-!  Concrete objects used by counterexamples and witnesses. -/

/-- A concrete genesis checkpoint for thread `"t"`. -/
def exGenesis : Checkpoint := create_thread_checkpoint ['g'] ['t'] 0

/-- A concrete fresh run record in `running` state. -/
def exRun : Run := ⟨['r'], ['t'], "running", 0, 0⟩

/-- A concrete stream context over thread `"t"`, run `"r"`. -/
def exCtx (text : List Char) : Ctx := ⟨['t'], ['r'], text, 0, 1⟩

/-- The final assistant message after a successful stream: the empty
assistant message of step-1 with its content set to the concatenation of
the emitted chunks and the mock usage block attached. -/
def finalAssistantMsg (ctx : Ctx) : Msg :=
  { make_msg "assistant" [] ctx.t0 with
      content := (echoChunks ctx.text).flatten,
      response_metadata :=
        some ⟨5, (echoWords ctx.text).length, 5 + (echoWords ctx.text).length⟩ }

/-- A concrete message for the heap-model counterexample. -/
def exMsg : Msg := make_msg "user" ['a'] 0

/-! ### Generic lemmas about the message-list and store helpers -/

theorem setLastContent_concat (t : List Char) (xs : List Msg) (m : Msg) :
    setLastContent t (xs ++ [m]) = xs ++ [{ m with content := t }] := by
  induction xs with
  | nil => rfl
  | cons x xs ih =>
    cases xs with
    | nil => rfl
    | cons y ys => simpa [setLastContent] using ih

theorem setLastMeta_concat (u : Usage) (xs : List Msg) (m : Msg) :
    setLastMeta u (xs ++ [m]) = xs ++ [{ m with response_metadata := some u }] := by
  induction xs with
  | nil => rfl
  | cons x xs ih =>
    cases xs with
    | nil => rfl
    | cons y ys => simpa [setLastMeta] using ih

theorem setLastContent_absorb (a b : List Char) (m : List Msg) :
    setLastContent a (setLastContent b m) = setLastContent a m := by
  rcases List.eq_nil_or_concat m with h | ⟨xs, z, h⟩ <;> subst h
  · rfl
  · simp [List.concat_eq_append, setLastContent_concat]

theorem updateHead_updateHead (f g : Checkpoint → Checkpoint) (l : List Checkpoint) :
    updateHead f (updateHead g l) = updateHead (fun c => f (g c)) l := by
  cases l <;> rfl

theorem runActions_nil (s : StreamState) : runActions [] s = s := rfl

theorem runActions_cons (a : StreamState → StreamState)
    (l : List (StreamState → StreamState)) (s : StreamState) :
    runActions (a :: l) s = runActions l (a s) := rfl

theorem runActions_append (l1 l2 : List (StreamState → StreamState))
    (s : StreamState) :
    runActions (l1 ++ l2) s = runActions l2 (runActions l1 s) := by
  simp [runActions, List.foldl_append]

theorem tokenLoop_nextId (idx : Nat) (chunks : List (List Char)) :
    ∀ acc s, (runActions (tokenActionsFrom idx acc chunks) s).nextId =
      s.nextId + chunks.length := by
  induction chunks with
  | nil => intro acc s; simp [tokenActionsFrom, runActions]
  | cons c cs ih =>
    intro acc s
    rw [tokenActionsFrom, runActions_cons, ih]
    simp [tokenAction, emit]
    omega

theorem tokenLoop_run (idx : Nat) (chunks : List (List Char)) :
    ∀ acc s, (runActions (tokenActionsFrom idx acc chunks) s).run = s.run := by
  induction chunks with
  | nil => intro acc s; rfl
  | cons c cs ih =>
    intro acc s
    rw [tokenActionsFrom, runActions_cons, ih]
    rfl

theorem tokenLoop_frames (idx : Nat) (chunks : List (List Char)) :
    ∀ acc s, (runActions (tokenActionsFrom idx acc chunks) s).frames =
      s.frames ++ tokenFramesFrom idx chunks s.nextId := by
  induction chunks with
  | nil => intro acc s; simp [tokenActionsFrom, runActions, tokenFramesFrom]
  | cons c cs ih =>
    intro acc s
    rw [tokenActionsFrom, runActions_cons, ih]
    simp [tokenAction, emit, tokenFramesFrom]

theorem tokenLoop_checkpoints (idx : Nat) (chunks : List (List Char))
    (hne : chunks ≠ []) :
    ∀ acc s, (runActions (tokenActionsFrom idx acc chunks) s).checkpoints =
      updateHead
        (fun c => { c with messages := setLastContent (acc ++ chunks.flatten) c.messages })
        s.checkpoints := by
  induction chunks with
  | nil => exact absurd rfl hne
  | cons c cs ih =>
    intro acc s
    rw [tokenActionsFrom, runActions_cons]
    by_cases h : cs = []
    · subst h
      simp [tokenActionsFrom, runActions_nil, tokenAction, emit]
    · rw [ih h]
      simp only [tokenAction, emit]
      rw [updateHead_updateHead]
      simp [setLastContent_absorb, List.append_assoc]

theorem setup_state (ctx : Ctx) (step0 step1 : Checkpoint) (run : Run)
    (ckpts : List Checkpoint) :
    runActions (setupActions ctx step0 step1) (initState run ckpts) =
      { checkpoints := step1 :: step0 :: ckpts
        run := run
        frames := [⟨none, ":", Payload.keepalive⟩,
          ⟨some 1, "metadata", Payload.metadataP ctx.run_id ctx.thread_id⟩,
          ⟨some 2, "data", Payload.addRun run⟩,
          ⟨some 3, "data", Payload.addCheckpoint step0⟩,
          ⟨some 4, "data", Payload.addCheckpoint step1⟩]
        nextId := 5 } := rfl

theorem finish_state (ctx : Ctx) (nw : Nat) (s : StreamState) :
    runActions (finishActions ctx nw) s =
      { checkpoints := updateHead (finalizeCkpt ctx.tFin nw) s.checkpoints
        run := finalizeRun ctx.tFin s.run
        frames := s.frames ++
          [⟨some s.nextId, "data", Payload.replaceRun (finalizeRun ctx.tFin s.run)⟩,
           ⟨some (s.nextId + 1), "data",
             Payload.replaceCheckpoint ((updateHead (finalizeCkpt ctx.tFin nw) s.checkpoints).headD default)⟩,
           ⟨some (s.nextId + 2), "stream_end",
             Payload.streamEndOk ctx.run_id ((updateHead (finalizeCkpt ctx.tFin nw) s.checkpoints).headD default)⟩]
        nextId := s.nextId + 3 } := by
  simp [finishActions, runActions, emit]

theorem echoWords_ne_nil (text : List Char) : echoWords text ≠ [] := by
  unfold echoWords
  simp only []
  split
  · simp
  · split
    · simp
    · rename_i h1 h2
      intro h
      rcases Classical.em (text = []) with ht | ht
      · exact h1 ⟨h, ht⟩
      · exact h2 ⟨h, ht⟩

theorem echoChunks_ne_nil (text : List Char) : echoChunks text ≠ [] := by
  unfold echoChunks
  simp [echoWords_ne_nil text]

theorem streamSuccess_eq (ctx : Ctx) (run : Run) (ckpts : List Checkpoint) :
    streamSuccess ctx run ckpts =
      runActions (finishActions ctx (echoWords ctx.text).length)
        (runActions
          (tokenActionsFrom
            ((mkStep1 ctx (mkStep0 ctx (ckpts.headD default))).messages.length - 1) []
            (echoChunks ctx.text))
          (runActions
            (setupActions ctx (mkStep0 ctx (ckpts.headD default))
              (mkStep1 ctx (mkStep0 ctx (ckpts.headD default))))
            (initState run ckpts))) := by
  unfold streamSuccess actions
  rw [runActions_append, runActions_append]

theorem streamSuccess_run (ctx : Ctx) (run : Run) (ckpts : List Checkpoint) :
    (streamSuccess ctx run ckpts).run = finalizeRun ctx.tFin run := by
  rw [streamSuccess_eq, finish_state]
  simp [tokenLoop_run, setup_state]

theorem streamSuccess_checkpoints (ctx : Ctx) (run : Run) (ckpts : List Checkpoint) :
    (streamSuccess ctx run ckpts).checkpoints =
      finalHeadCkpt ctx (ckpts.headD default) ::
        mkStep0 ctx (ckpts.headD default) :: ckpts := by
  rw [streamSuccess_eq, finish_state]
  simp only [tokenLoop_checkpoints _ _ (echoChunks_ne_nil ctx.text), setup_state]
  simp [updateHead, finalHeadCkpt]

theorem streamSuccess_frames (ctx : Ctx) (run : Run) (ckpts : List Checkpoint) :
    (streamSuccess ctx run ckpts).frames =
      [⟨none, ":", Payload.keepalive⟩,
       ⟨some 1, "metadata", Payload.metadataP ctx.run_id ctx.thread_id⟩,
       ⟨some 2, "data", Payload.addRun run⟩,
       ⟨some 3, "data", Payload.addCheckpoint (mkStep0 ctx (ckpts.headD default))⟩,
       ⟨some 4, "data", Payload.addCheckpoint (mkStep1 ctx (mkStep0 ctx (ckpts.headD default)))⟩] ++
      tokenFramesFrom
        ((mkStep1 ctx (mkStep0 ctx (ckpts.headD default))).messages.length - 1)
        (echoChunks ctx.text) 5 ++
      [⟨some (5 + (echoChunks ctx.text).length), "data",
         Payload.replaceRun (finalizeRun ctx.tFin run)⟩,
       ⟨some (6 + (echoChunks ctx.text).length), "data",
         Payload.replaceCheckpoint (finalHeadCkpt ctx (ckpts.headD default))⟩,
       ⟨some (7 + (echoChunks ctx.text).length), "stream_end",
         Payload.streamEndOk ctx.run_id (finalHeadCkpt ctx (ckpts.headD default))⟩] := by
  rw [streamSuccess_eq, finish_state]
  simp only [tokenLoop_frames, tokenLoop_nextId, tokenLoop_run,
    tokenLoop_checkpoints _ _ (echoChunks_ne_nil ctx.text), setup_state]
  simp [updateHead, finalHeadCkpt]
  refine ⟨by omega, by omega⟩

theorem idSeq_snoc (a m : Nat) : idSeq a (m + 1) = idSeq a m ++ [a + m] := by
  simp [idSeq, List.range_succ]

theorem idSeq_length (a m : Nat) : (idSeq a m).length = m := by
  simp [idSeq]

theorem IdInv_init (run : Run) (ckpts : List Checkpoint) :
    IdInv (initState run ckpts) := by
  constructor
  · simp [frameIds, initState, idSeq]
  · simp [initState]

theorem IdInv_emit (ev : String) (p : Payload) (s : StreamState)
    (h : IdInv s) : IdInv (emit ev p s) := by
  obtain ⟨h1, h2⟩ := h
  constructor
  · show (emit ev p s).frames.filterMap Frame.id = _
    simp only [emit, List.filterMap_append]
    rw [show s.frames.filterMap Frame.id = frameIds s from rfl, h1]
    have e1 : s.nextId + 1 - 1 = (s.nextId - 1) + 1 := by omega
    have e2 : 1 + (s.nextId - 1) = s.nextId := by omega
    rw [e1, idSeq_snoc, e2]
    rfl
  · simp [emit]

theorem IdInv_frames_none (ev : String) (p : Payload) (s : StreamState)
    (h : IdInv s) :
    IdInv { s with frames := s.frames ++ [⟨none, ev, p⟩] } := by
  obtain ⟨h1, h2⟩ := h
  refine ⟨?_, h2⟩
  show List.filterMap Frame.id _ = _
  simp only [List.filterMap_append]
  rw [show s.frames.filterMap Frame.id = frameIds s from rfl, h1]
  simp

theorem IdInv_checkpoints (X : List Checkpoint) (s : StreamState)
    (h : IdInv s) : IdInv { s with checkpoints := X } := h

theorem IdInv_runset (r : Run) (X : List Checkpoint) (s : StreamState)
    (h : IdInv s) : IdInv { s with run := r, checkpoints := X } := h

theorem mem_tokenActionsFrom (idx : Nat) (a : StreamState → StreamState) :
    ∀ (chunks : List (List Char)) (acc : List Char),
      a ∈ tokenActionsFrom idx acc chunks →
      ∃ c acc2, a = tokenAction idx c acc2 := by
  intro chunks
  induction chunks with
  | nil => intro acc h; simp [tokenActionsFrom] at h
  | cons c cs ih =>
    intro acc h
    rw [tokenActionsFrom] at h
    rcases List.mem_cons.mp h with h | h
    · exact ⟨c, acc ++ c, h⟩
    · exact ih (acc ++ c) h

theorem runActions_pres {P : StreamState → Prop}
    (l : List (StreamState → StreamState))
    (hl : ∀ a ∈ l, ∀ s, P s → P (a s)) :
    ∀ s, P s → P (runActions l s) := by
  induction l with
  | nil => intro s h; exact h
  | cons a l ih =>
    intro s hs
    rw [runActions_cons]
    exact ih (fun b hb => hl b (List.mem_cons_of_mem a hb))
      (a s) (hl a (List.mem_cons_self a l) s hs)

theorem actions_pres_IdInv (ctx : Ctx) (latest : Checkpoint) :
    ∀ a ∈ actions ctx latest, ∀ s, IdInv s → IdInv (a s) := by
  intro a ha s hs
  simp only [actions, List.mem_append] at ha
  rcases ha with (ha | ha) | ha
  · simp only [setupActions, List.mem_cons, List.not_mem_nil, or_false] at ha
    rcases ha with rfl | rfl | rfl | rfl | rfl
    · exact IdInv_frames_none _ _ s hs
    · exact IdInv_emit _ _ s hs
    · exact IdInv_emit _ _ s hs
    · exact IdInv_emit _ _ { s with checkpoints := _ } (IdInv_checkpoints _ s hs)
    · exact IdInv_emit _ _ { s with checkpoints := _ } (IdInv_checkpoints _ s hs)
  · obtain ⟨c, acc2, rfl⟩ := mem_tokenActionsFrom _ a _ _ ha
    exact IdInv_checkpoints _ _ (IdInv_emit _ _ s hs)
  · simp only [finishActions, List.mem_cons, List.not_mem_nil, or_false] at ha
    rcases ha with rfl | rfl | rfl | rfl
    · exact IdInv_runset _ _ s hs
    · exact IdInv_emit _ _ s hs
    · exact IdInv_emit _ _ s hs
    · exact IdInv_emit _ _ s hs

theorem IdInv_prefixState (ctx : Ctx) (run : Run) (ckpts : List Checkpoint)
    (f : Nat) : IdInv (prefixState ctx run ckpts f) := by
  unfold prefixState
  exact runActions_pres _
    (fun a ha => actions_pres_IdInv ctx _ a (List.take_subset f _ ha))
    _ (IdInv_init run ckpts)

theorem IdInv_streamSuccess (ctx : Ctx) (run : Run) (ckpts : List Checkpoint) :
    IdInv (streamSuccess ctx run ckpts) := by
  unfold streamSuccess
  exact runActions_pres _ (actions_pres_IdInv ctx _) _ (IdInv_init run ckpts)

theorem IdInv_IdsFromOne (s : StreamState) (h : IdInv s) : IdsFromOne s := by
  obtain ⟨h1, h2⟩ := h
  unfold IdsFromOne
  rw [h1, idSeq_length]

theorem errorHandler_frames (rid msg : List Char) (s : StreamState) :
    (errorHandler rid msg s).frames =
      s.frames ++ [⟨some s.nextId, "error", Payload.errorInfo rid msg⟩,
        ⟨some (s.nextId + 1), "stream_end", Payload.streamEndErr rid⟩] := by
  simp [errorHandler]

theorem errorHandler_run (rid msg : List Char) (s : StreamState) :
    (errorHandler rid msg s).run = s.run := rfl

theorem errorHandler_checkpoints (rid msg : List Char) (s : StreamState) :
    (errorHandler rid msg s).checkpoints = s.checkpoints := rfl

theorem IdsFromOne_errorHandler (rid msg : List Char) (s : StreamState)
    (h : IdInv s) : IdsFromOne (errorHandler rid msg s) := by
  obtain ⟨h1, h2⟩ := h
  unfold IdsFromOne frameIds
  rw [errorHandler_frames]
  simp only [List.filterMap_append, List.length_append]
  rw [show s.frames.filterMap Frame.id = frameIds s from rfl, h1, idSeq_length]
  have hz : List.filterMap Frame.id
      [(⟨some s.nextId, "error", Payload.errorInfo rid msg⟩ : Frame),
       ⟨some (s.nextId + 1), "stream_end", Payload.streamEndErr rid⟩] =
      [s.nextId, s.nextId + 1] := rfl
  rw [hz]
  have e5 : s.nextId - 1 + [s.nextId, s.nextId + 1].length =
      (s.nextId - 1 + 1) + 1 := by simp
  rw [e5, idSeq_snoc, idSeq_snoc]
  have e2 : 1 + (s.nextId - 1) = s.nextId := by omega
  have e4 : 1 + (s.nextId - 1 + 1) = s.nextId + 1 := by omega
  rw [e2, e4]
  simp

theorem tokenActionsFrom_length (idx : Nat) :
    ∀ (chunks : List (List Char)) (acc : List Char),
      (tokenActionsFrom idx acc chunks).length = chunks.length := by
  intro chunks
  induction chunks with
  | nil => intro acc; rfl
  | cons c cs ih => intro acc; rw [tokenActionsFrom]; simp [ih]

theorem actions_length (ctx : Ctx) (latest : Checkpoint) :
    (actions ctx latest).length = 9 + (echoChunks ctx.text).length := by
  unfold actions
  simp [setupActions, finishActions, tokenActionsFrom_length]
  omega

theorem take_actions_of_le (ctx : Ctx) (latest : Checkpoint) (f : Nat)
    (hf : f ≤ 5 + (echoChunks ctx.text).length) :
    (actions ctx latest).take f =
      (setupActions ctx (mkStep0 ctx latest) (mkStep1 ctx (mkStep0 ctx latest)) ++
        tokenActionsFrom ((mkStep1 ctx (mkStep0 ctx latest)).messages.length - 1) []
          (echoChunks ctx.text)).take f := by
  unfold actions
  rw [List.take_append_eq_append_take]
  have hlen : (setupActions ctx (mkStep0 ctx latest) (mkStep1 ctx (mkStep0 ctx latest)) ++
      tokenActionsFrom ((mkStep1 ctx (mkStep0 ctx latest)).messages.length - 1) []
        (echoChunks ctx.text)).length = 5 + (echoChunks ctx.text).length := by
    simp [setupActions, tokenActionsFrom_length]
    omega
  rw [hlen]
  have : f - (5 + (echoChunks ctx.text).length) = 0 := by omega
  rw [this]
  simp

theorem pre_actions_run (ctx : Ctx) (s0 s1 : Checkpoint) (idx : Nat)
    (chunks : List (List Char)) (acc : List Char) :
    ∀ a ∈ setupActions ctx s0 s1 ++ tokenActionsFrom idx acc chunks,
      ∀ s, (a s).run = s.run := by
  intro a ha s
  rcases List.mem_append.mp ha with ha | ha
  · simp only [setupActions, List.mem_cons, List.not_mem_nil, or_false] at ha
    rcases ha with rfl | rfl | rfl | rfl | rfl <;> rfl
  · obtain ⟨c, acc2, rfl⟩ := mem_tokenActionsFrom _ a _ _ ha
    rfl

theorem prefixState_run (ctx : Ctx) (run : Run) (ckpts : List Checkpoint)
    (f : Nat) (hf : f ≤ 5 + (echoChunks ctx.text).length) :
    (prefixState ctx run ckpts f).run = run := by
  unfold prefixState
  rw [take_actions_of_le ctx _ f hf]
  exact runActions_pres (P := fun s => s.run = run) _
    (fun a ha s hs => by
      show (a s).run = run
      rw [pre_actions_run ctx _ _ _ _ _ a (List.take_subset f _ ha) s]; exact hs)
    _ rfl

theorem NTF_append_frame (s : StreamState) (fr : Frame)
    (h : NoTerminalFrames s) (he : fr.event ≠ "error" ∧ fr.event ≠ "stream_end") :
    ∀ (s2 : StreamState), s2.frames = s.frames ++ [fr] → NoTerminalFrames s2 := by
  intro s2 hs2 g hg
  rw [hs2] at hg
  rcases List.mem_append.mp hg with hg | hg
  · exact h g hg
  · rcases List.mem_singleton.mp hg with rfl
    exact he

theorem pre_actions_NTF (ctx : Ctx) (s0 s1 : Checkpoint) (idx : Nat)
    (chunks : List (List Char)) (acc : List Char) :
    ∀ a ∈ setupActions ctx s0 s1 ++ tokenActionsFrom idx acc chunks,
      ∀ s, NoTerminalFrames s → NoTerminalFrames (a s) := by
  intro a ha s hs
  rcases List.mem_append.mp ha with ha | ha
  · simp only [setupActions, List.mem_cons, List.not_mem_nil, or_false] at ha
    rcases ha with rfl | rfl | rfl | rfl | rfl
    · exact NTF_append_frame s _ hs (by constructor <;> simp) _ rfl
    · exact NTF_append_frame s _ hs (by constructor <;> simp) _ rfl
    · exact NTF_append_frame s _ hs (by constructor <;> simp) _ rfl
    · exact NTF_append_frame { s with checkpoints := s0 :: s.checkpoints } _
        (fun g hg => hs g hg) (by constructor <;> simp) _ rfl
    · exact NTF_append_frame { s with checkpoints := s1 :: s.checkpoints } _
        (fun g hg => hs g hg) (by constructor <;> simp) _ rfl
  · obtain ⟨c, acc2, rfl⟩ := mem_tokenActionsFrom _ a _ _ ha
    exact NTF_append_frame s _ hs (by constructor <;> simp) _ rfl

theorem prefixState_NTF (ctx : Ctx) (run : Run) (ckpts : List Checkpoint)
    (f : Nat) (hf : f ≤ 5 + (echoChunks ctx.text).length) :
    NoTerminalFrames (prefixState ctx run ckpts f) := by
  unfold prefixState
  rw [take_actions_of_le ctx _ f hf]
  refine runActions_pres _
    (fun a ha s hs => pre_actions_NTF ctx _ _ _ _ _ a (List.take_subset f _ ha) s hs)
    _ ?_
  intro g hg
  simp [initState] at hg

theorem actions_extend_frames (ctx : Ctx) (latest : Checkpoint) :
    ∀ a ∈ actions ctx latest, ∀ s, ∃ ts, (a s).frames = s.frames ++ ts := by
  intro a ha s
  simp only [actions, List.mem_append] at ha
  rcases ha with (ha | ha) | ha
  · simp only [setupActions, List.mem_cons, List.not_mem_nil, or_false] at ha
    rcases ha with rfl | rfl | rfl | rfl | rfl
    · exact ⟨_, rfl⟩
    · exact ⟨_, rfl⟩
    · exact ⟨_, rfl⟩
    · exact ⟨_, rfl⟩
    · exact ⟨_, rfl⟩
  · obtain ⟨c, acc2, rfl⟩ := mem_tokenActionsFrom _ a _ _ ha
    exact ⟨_, rfl⟩
  · simp only [finishActions, List.mem_cons, List.not_mem_nil, or_false] at ha
    rcases ha with rfl | rfl | rfl | rfl
    · exact ⟨[], by simp⟩
    · exact ⟨_, rfl⟩
    · exact ⟨_, rfl⟩
    · exact ⟨_, rfl⟩

theorem keepFrame_head_pres (ctx : Ctx) (latest : Checkpoint)
    (a : StreamState → StreamState) (ha : a ∈ actions ctx latest)
    (s : StreamState)
    (hs : s.frames.head? = some ⟨none, ":", Payload.keepalive⟩) :
    (a s).frames.head? = some ⟨none, ":", Payload.keepalive⟩ := by
  obtain ⟨ts, hts⟩ := actions_extend_frames ctx latest a ha s
  cases hfr : s.frames with
  | nil => rw [hfr] at hs; simp at hs
  | cons x xs =>
    rw [hts, hfr]
    rw [hfr] at hs
    simpa using hs

theorem actions_cons_shape (ctx : Ctx) (latest : Checkpoint) :
    actions ctx latest =
      (fun s => { s with frames := s.frames ++ [⟨none, ":", Payload.keepalive⟩] }) ::
      ([fun s => emit "metadata" (Payload.metadataP ctx.run_id ctx.thread_id) s,
        fun s => emit "data" (Payload.addRun s.run) s,
        fun s => emit "data" (Payload.addCheckpoint (mkStep0 ctx latest))
          { s with checkpoints := mkStep0 ctx latest :: s.checkpoints },
        fun s => emit "data" (Payload.addCheckpoint (mkStep1 ctx (mkStep0 ctx latest)))
          { s with checkpoints := mkStep1 ctx (mkStep0 ctx latest) :: s.checkpoints }] ++
        tokenActionsFrom ((mkStep1 ctx (mkStep0 ctx latest)).messages.length - 1) []
          (echoChunks ctx.text) ++
        finishActions ctx (echoWords ctx.text).length) := by
  simp [actions, setupActions]

theorem prefixState_head_keepalive (ctx : Ctx) (run : Run)
    (ckpts : List Checkpoint) (f : Nat) (hf : 1 ≤ f) :
    (prefixState ctx run ckpts f).frames.head? =
      some ⟨none, ":", Payload.keepalive⟩ := by
  unfold prefixState
  obtain ⟨f', rfl⟩ : ∃ f', f = f' + 1 := ⟨f - 1, by omega⟩
  rw [actions_cons_shape]
  rw [List.take_succ_cons]
  rw [runActions_cons]
  refine runActions_pres
    (P := fun s => s.frames.head? = some ⟨none, ":", Payload.keepalive⟩) _
    (fun a ha s hs => ?_) _ ?_
  · refine keepFrame_head_pres ctx (ckpts.headD default) a ?_ s hs
    rw [actions_cons_shape]
    exact List.mem_cons_of_mem _ (List.take_subset f' _ ha)
  · rfl

theorem streamSuccess_head_keepalive (ctx : Ctx) (run : Run)
    (ckpts : List Checkpoint) :
    (streamSuccess ctx run ckpts).frames.head? =
      some ⟨none, ":", Payload.keepalive⟩ := by
  rw [streamSuccess_frames]
  rfl

theorem errorHandler_head (rid msg : List Char) (s : StreamState)
    (hs : s.frames.head? = some ⟨none, ":", Payload.keepalive⟩) :
    (errorHandler rid msg s).frames.head? =
      some ⟨none, ":", Payload.keepalive⟩ := by
  rw [errorHandler_frames]
  cases hfr : s.frames with
  | nil => rw [hfr] at hs; simp at hs
  | cons x xs =>
    rw [hfr] at hs
    simpa using hs

theorem tokenFramesFrom_chunks (idx : Nat) :
    ∀ (chunks : List (List Char)) (n : Nat),
      (tokenFramesFrom idx chunks n).filterMap chunkOfFrame = chunks := by
  intro chunks
  induction chunks with
  | nil => intro n; rfl
  | cons c cs ih =>
    intro n
    rw [tokenFramesFrom]
    simp [chunkOfFrame, ih]

theorem tokenChunksOf_streamSuccess (ctx : Ctx) (run : Run)
    (ckpts : List Checkpoint) :
    tokenChunksOf (streamSuccess ctx run ckpts) = echoChunks ctx.text := by
  unfold tokenChunksOf
  rw [streamSuccess_frames]
  simp [List.filterMap_append, tokenFramesFrom_chunks, chunkOfFrame]

theorem mkStep0_ckid (ctx : Ctx) (latest : Checkpoint) :
    (mkStep0 ctx latest).checkpoint.checkpoint_id =
      ctx.run_id ++ [':', 's', 't', 'e', 'p', '_', '0'] := rfl

theorem mkStep1_ckid (ctx : Ctx) (s0 : Checkpoint) :
    (mkStep1 ctx s0).checkpoint.checkpoint_id =
      ctx.run_id ++ [':', 's', 't', 'e', 'p', '_', '1'] := rfl

theorem mkStep0_parent (ctx : Ctx) (latest : Checkpoint)
    (h : latest.checkpoint.checkpoint_id ≠ []) :
    (mkStep0 ctx latest).parent_checkpoint =
      some ⟨ctx.thread_id, latest.checkpoint.checkpoint_id⟩ := by
  simp [mkStep0, make_checkpoint, h]

theorem mkStep1_parent (ctx : Ctx) (latest : Checkpoint) :
    (mkStep1 ctx (mkStep0 ctx latest)).parent_checkpoint =
      some ⟨ctx.thread_id, (mkStep0 ctx latest).checkpoint.checkpoint_id⟩ := by
  simp [mkStep1, make_checkpoint, mkStep0_ckid]

theorem finalHeadCkpt_checkpoint (ctx : Ctx) (latest : Checkpoint) :
    (finalHeadCkpt ctx latest).checkpoint =
      (mkStep1 ctx (mkStep0 ctx latest)).checkpoint := rfl

theorem finalHeadCkpt_parent (ctx : Ctx) (latest : Checkpoint) :
    (finalHeadCkpt ctx latest).parent_checkpoint =
      (mkStep1 ctx (mkStep0 ctx latest)).parent_checkpoint := rfl

theorem rootCount_cons (c : Checkpoint) (l : List Checkpoint) :
    rootCount (c :: l) =
      (if c.parent_checkpoint = none then 1 else 0) + rootCount l := by
  by_cases h : c.parent_checkpoint = none <;>
    simp [rootCount, List.filter_cons, h] <;> omega

theorem StoreInv_afterRun (ctx : Ctx) (r : Run) (l : List Checkpoint)
    (hInv : StoreInv l) (hne : l ≠ []) :
    StoreInv (checkpointsAfterRun ctx r l) := by
  obtain ⟨hroot, hpar, hids⟩ := hInv
  obtain ⟨x, xs, rfl⟩ := List.exists_cons_of_ne_nil hne
  have hx : (x :: xs).headD default = x := rfl
  have hxid : x.checkpoint.checkpoint_id ≠ [] :=
    hids x (List.mem_cons_self x xs)
  unfold checkpointsAfterRun
  rw [streamSuccess_checkpoints, hx]
  have hp0 : (mkStep0 ctx x).parent_checkpoint =
      some ⟨ctx.thread_id, x.checkpoint.checkpoint_id⟩ := mkStep0_parent ctx x hxid
  have hp1 : (finalHeadCkpt ctx x).parent_checkpoint =
      some ⟨ctx.thread_id, (mkStep0 ctx x).checkpoint.checkpoint_id⟩ := by
    rw [finalHeadCkpt_parent, mkStep1_parent]
  refine ⟨?_, ?_, ?_⟩
  · rw [rootCount_cons, rootCount_cons, hp0, hp1]
    simpa using hroot
  · refine ⟨?_, ?_, hpar⟩
    · intro p hp
      rw [hp1] at hp
      obtain rfl := Option.some_injective _ hp
      exact ⟨mkStep0 ctx x, List.mem_cons_self _ _, rfl⟩
    · intro p hp
      rw [hp0] at hp
      obtain rfl := Option.some_injective _ hp
      exact ⟨x, List.mem_cons_self x xs, rfl⟩
  · intro c hc
    rcases List.mem_cons.mp hc with rfl | hc
    · rw [finalHeadCkpt_checkpoint, mkStep1_ckid]; simp
    · rcases List.mem_cons.mp hc with rfl | hc
      · rw [mkStep0_ckid]; simp
      · exact hids c hc

theorem StoreInv_afterRuns (runs : List (Ctx × Run)) :
    ∀ l, StoreInv l → l ≠ [] → StoreInv (checkpointsAfterRuns runs l) := by
  induction runs with
  | nil => intro l h _; exact h
  | cons p rest ih =>
    intro l h hne
    rw [checkpointsAfterRuns]
    refine ih _ (StoreInv_afterRun p.1 p.2 l h hne) ?_
    obtain ⟨x, xs, rfl⟩ := List.exists_cons_of_ne_nil hne
    unfold checkpointsAfterRun
    rw [streamSuccess_checkpoints]
    simp

theorem StoreInv_genesis (gid tid : List Char) (t : Nat) (h : gid ≠ []) :
    StoreInv [create_thread_checkpoint gid tid t] := by
  refine ⟨?_, ?_, ?_⟩
  · simp [rootCount, create_thread_checkpoint, make_checkpoint]
  · refine ⟨?_, trivial⟩
    intro p hp
    simp [create_thread_checkpoint, make_checkpoint] at hp
  · intro c hc
    rcases List.mem_singleton.mp hc with rfl
    simpa [create_thread_checkpoint, make_checkpoint] using h

theorem splitWsAux_word (w : List Char) (hw : ∀ c ∈ w, isWs c = false) :
    ∀ (rest acc : List Char),
      splitWsAux (w ++ rest) acc = splitWsAux rest (w.reverse ++ acc) := by
  induction w with
  | nil => intro rest acc; simp
  | cons c cs ih =>
    intro rest acc
    have hc : isWs c = false := hw c (List.mem_cons_self c cs)
    rw [List.cons_append, splitWsAux, hc]
    simp only [Bool.false_eq_true, if_false]
    rw [ih (fun d hd => hw d (List.mem_cons_of_mem c hd)) rest (c :: acc)]
    simp

theorem isWs_space : isWs ' ' = true := rfl

theorem splitWs_joinWords :
    ∀ (ws : List (List Char)), ws ≠ [] →
      (∀ w ∈ ws, w ≠ [] ∧ ∀ c ∈ w, isWs c = false) →
      splitWs (joinWords ws) = ws := by
  intro ws
  induction ws with
  | nil => intro h; exact absurd rfl h
  | cons w ws ih =>
    intro _ hall
    obtain ⟨hwne, hwns⟩ := hall w (List.mem_cons_self w ws)
    cases ws with
    | nil =>
      show splitWs (joinWords [w]) = [w]
      unfold joinWords splitWs
      rw [show w = w ++ [] by simp, splitWsAux_word w hwns [] []]
      rw [splitWsAux]
      have : w.reverse ++ [] ≠ [] := by simpa using hwne
      simp [this]
      exact hwne
    | cons w' ws' =>
      show splitWs (joinWords (w :: w' :: ws')) = w :: w' :: ws'
      unfold splitWs
      rw [joinWords, splitWsAux_word w hwns _ []]
      rw [splitWsAux, isWs_space]
      have hrev : w.reverse ++ [] ≠ [] := by simpa using hwne
      simp only [if_true, hrev, if_false]
      simp only [List.append_nil, List.reverse_reverse]
      have := ih (by simp) (fun v hv => hall v (List.mem_cons_of_mem w hv))
      unfold splitWs at this
      rw [this]

theorem echoWords_joinWords (ws : List (List Char)) (h1 : ws ≠ [])
    (h2 : ∀ w ∈ ws, w ≠ [] ∧ ∀ c ∈ w, isWs c = false) :
    echoWords (joinWords ws) = ws := by
  unfold echoWords
  simp only [splitWs_joinWords ws h1 h2, h1]
  simp [h1]

theorem joinWords_cons (x : List Char) (l : List (List Char)) (h : l ≠ []) :
    joinWords (x :: l) = x ++ ' ' :: joinWords l := by
  cases l with
  | nil => exact absurd rfl h
  | cons y ys => rfl

theorem chunks_of_distinct_last (ws : List (List Char)) (h1 : ws ≠ [])
    (hd : ∀ w ∈ ws.dropLast, w ≠ ws.getLastD []) :
    ws.map (fun w => if w ≠ ws.getLastD [] then w ++ [' '] else w) =
      ws.dropLast.map (fun w => w ++ [' ']) ++ [ws.getLastD []] := by
  rcases List.eq_nil_or_concat ws with rfl | ⟨xs, z, rfl⟩
  · exact absurd rfl h1
  · rw [List.concat_eq_append] at *
    rw [List.getLastD_concat, List.dropLast_concat] at *
    rw [List.map_append]
    congr 1
    · refine List.map_congr_left ?_
      intro x hx
      simp [hd x hx]
    · simp

theorem flatten_chunks (xs : List (List Char)) (z : List Char) :
    (xs.map (fun w => w ++ [' ']) ++ [z]).flatten = joinWords (xs ++ [z]) := by
  induction xs with
  | nil => simp [joinWords]
  | cons x xs ih =>
    rw [List.cons_append, joinWords_cons x (xs ++ [z]) (by simp)]
    simp only [List.map_cons, List.cons_append, List.flatten_cons]
    rw [ih]
    simp

theorem setLastMeta_absorb (u u' : Usage) (m : List Msg) :
    setLastMeta u (setLastMeta u' m) = setLastMeta u m := by
  rcases List.eq_nil_or_concat m with h | ⟨xs, z, h⟩ <;> subst h
  · rfl
  · simp [List.concat_eq_append, setLastMeta_concat]

theorem echoChunks_length (text : List Char) :
    (echoChunks text).length = (echoWords text).length := by
  simp [echoChunks]

theorem finalHeadCkpt_messages (ctx : Ctx) (latest : Checkpoint) :
    (finalHeadCkpt ctx latest).messages =
      latest.messages ++ [make_msg "user" ctx.text ctx.t0, finalAssistantMsg ctx] := by
  show setLastMeta _ (setLastContent _ ((latest.messages ++ [make_msg "user" ctx.text ctx.t0]) ++ [make_msg "assistant" [] ctx.t0])) = _
  rw [setLastContent_concat, setLastMeta_concat]
  simp [finalAssistantMsg]

theorem splitWsAux_all_ws :
    ∀ (s : List Char), (∀ c ∈ s, isWs c = true) → splitWsAux s [] = [] := by
  intro s
  induction s with
  | nil => intro _; rfl
  | cons c cs ih =>
    intro h
    rw [splitWsAux, h c (List.mem_cons_self c cs)]
    simp only [if_true]
    exact ih (fun d hd => h d (List.mem_cons_of_mem c hd))

theorem echoChunks_all_ws (text : List Char)
    (h1 : ∀ c ∈ text, isWs c = true) (h2 : text ≠ []) :
    echoChunks text = [text] := by
  have hsp : splitWs text = [] := splitWsAux_all_ws text h1
  have hw : echoWords text = [text] := by
    unfold echoWords
    simp [hsp, h2]
  unfold echoChunks
  rw [hw]
  simp

theorem getD_set_self {α : Type} (d : α) :
    ∀ (l : List α) (i : Nat) (v : α), i < l.length →
      (l.set i v).getD i d = v := by
  intro l
  induction l with
  | nil => intro i v h; simp at h
  | cons x xs ih =>
    intro i v h
    cases i with
    | zero => rfl
    | succ i =>
      show (x :: xs.set i v).getD (i + 1) d = v
      rw [List.getD_cons_succ]
      exact ih i v (by simpa using h)

theorem set_append_left {α : Type} :
    ∀ (A B : List α) (i : Nat) (v : α), i < A.length →
      (A ++ B).set i v = A.set i v ++ B := by
  intro A
  induction A with
  | nil => intro B i v h; simp at h
  | cons x xs ih =>
    intro B i v h
    cases i with
    | zero => rfl
    | succ i =>
      show x :: (xs ++ B).set i v = x :: xs.set i v ++ B
      rw [ih B i v (by simpa using h)]
      rfl

theorem getD_append_length {α : Type} (d : α) :
    ∀ (A : List α) (x : α), (A ++ [x]).getD A.length d = x := by
  intro A
  induction A with
  | nil => intro x; rfl
  | cons a as ih =>
    intro x
    show (a :: (as ++ [x])).getD (as.length + 1) d = x
    rw [List.getD_cons_succ]
    exact ih x

/-! ### Claim theorems -/

/-- C8: for input text equal to the empty string, exactly one token chunk
is emitted, its value is the placeholder phrase, and the empty string is
treated as valid input: the stream completes the success path and the run
status is `success`. -/
theorem c8_empty_input_placeholder (tid rid : List Char) (t0 tf : Nat)
    (run : Run) (latest : Checkpoint) (rest : List Checkpoint) :
    tokenChunksOf (streamSuccess ⟨tid, rid, [], t0, tf⟩ run (latest :: rest)) =
      [placeholderText] ∧
    (streamSuccess ⟨tid, rid, [], t0, tf⟩ run (latest :: rest)).run.status =
      "success" := by
  constructor
  · rw [tokenChunksOf_streamSuccess]
    rfl
  · rw [streamSuccess_run]
    rfl

/-- C10: for a non-empty input text consisting only of whitespace, exactly
one token chunk is emitted and its value is the raw input text itself
(neither the placeholder nor a whitespace-split word). -/
theorem c10_whitespace_only_raw_text (ctx : Ctx) (run : Run)
    (latest : Checkpoint) (rest : List Checkpoint)
    (h1 : ∀ c ∈ ctx.text, isWs c = true) (h2 : ctx.text ≠ []) :
    tokenChunksOf (streamSuccess ctx run (latest :: rest)) = [ctx.text] := by
  rw [tokenChunksOf_streamSuccess]
  exact echoChunks_all_ws ctx.text h1 h2

/-- Witness for C10 at the concrete whitespace-only input `" "`. -/
theorem c10_witness :
    (∀ c ∈ (exCtx [' ']).text, isWs c = true) ∧ (exCtx [' ']).text ≠ [] ∧
    tokenChunksOf (streamSuccess (exCtx [' ']) exRun [exGenesis]) = [[' ']] := by
  refine ⟨by decide, by decide, ?_⟩
  exact c10_whitespace_only_raw_text (exCtx [' ']) exRun exGenesis []
    (by decide) (by decide)

/-- C5 counterexample: `_finalize_data` has no terminal-state guard.  A
second finalize call refreshes the checkpoint's `updated_at` (2 instead of
the first call's 1), overwrites the usage payload (completion count 3
instead of the first call's 7), and changes the run record (its
`updated_at` moves), so the first call's timestamp and result payload are
not retained. -/
theorem c5_counterexample :
    (finalizeCkpt 2 3 (finalizeCkpt 1 7 (mkStep0 (exCtx ['h', 'i']) exGenesis))).updated_at = some 2 ∧
    (finalizeCkpt 1 7 (mkStep0 (exCtx ['h', 'i']) exGenesis)).updated_at = some 1 ∧
    ((finalizeCkpt 2 3 (finalizeCkpt 1 7 (mkStep0 (exCtx ['h', 'i']) exGenesis))).messages.getLastD default).response_metadata = some ⟨5, 3, 8⟩ ∧
    ((finalizeCkpt 1 7 (mkStep0 (exCtx ['h', 'i']) exGenesis)).messages.getLastD default).response_metadata = some ⟨5, 7, 12⟩ ∧
    finalizeRun 2 (finalizeRun 1 exRun) ≠ finalizeRun 1 exRun := by
  refine ⟨rfl, rfl, by decide, by decide, by decide⟩

/-- C5 amended: finalization is unguarded and last-write-wins, not
first-write-wins: a repeated finalize call overwrites the timestamp and
usage payload exactly as a single call with the later arguments would
(`finalize t' n ∘ finalize t n' = finalize t' n`), and the status is
always `success` afterwards.  It is a no-op only when repeated with the
same timestamp and word count. -/
theorem c5_finalize_last_write_wins (t t' n n' : Nat) (r : Run)
    (c : Checkpoint) :
    finalizeRun t' (finalizeRun t r) = finalizeRun t' r ∧
    finalizeCkpt t' n (finalizeCkpt t n' c) = finalizeCkpt t' n c ∧
    (finalizeRun t r).status = "success" := by
  refine ⟨rfl, ?_, rfl⟩
  unfold finalizeCkpt
  simp [setLastMeta_absorb]

/-- C6 counterexample: `make_checkpoint` stores the caller's messages list
without copying: the constructed checkpoint holds the same reference
(index 0), and mutating the caller's list afterwards changes the
checkpoint's observed messages from `[exMsg]` to `[]`. -/
theorem c6_counterexample :
    (make_checkpoint_heap ['c'] none 0).messagesRef = 0 ∧
    readMsgs [[exMsg]] (make_checkpoint_heap ['c'] none 0) = [exMsg] ∧
    readMsgs (writeList [[exMsg]] 0 []) (make_checkpoint_heap ['c'] none 0) = [] ∧
    ([] : List Msg) ≠ [exMsg] := by
  refine ⟨rfl, rfl, rfl, by decide⟩

/-- C6 amended: the checkpoint builder aliases the caller's list (mutating
the exact list passed to `make_checkpoint` alters the checkpoint), and the
isolation the spec describes is provided by the caller instead:
`_create_step_0_checkpoint` deep-copies the parent's messages into a fresh
list before calling the builder, so mutating the parent's list afterwards
does not alter the new checkpoint. -/
theorem c6_builder_aliases (cid : List Char) (p : Option (List Char))
    (r : Nat) (h : List (List Msg)) (v : List Msg) (um : Msg)
    (hr : r < h.length) :
    (make_checkpoint_heap cid p r).messagesRef = r ∧
    readMsgs (writeList h r v) (make_checkpoint_heap cid p r) = v ∧
    readMsgs (writeList (step0Alloc h r um).1 r v)
        (make_checkpoint_heap cid p (step0Alloc h r um).2) =
      readMsgs (step0Alloc h r um).1
        (make_checkpoint_heap cid p (step0Alloc h r um).2) := by
  refine ⟨rfl, ?_, ?_⟩
  · exact getD_set_self [] h r v hr
  · show (((h ++ [_]).set r v).getD h.length []) = ((h ++ [_]).getD h.length [])
    rw [set_append_left h _ r v hr]
    rw [show h.length = (h.set r v).length by simp]
    rw [getD_append_length]
    rw [show (h.set r v).length = h.length by simp]
    rw [getD_append_length]

/-- Witness for C6 amended at a concrete one-cell heap. -/
theorem c6_witness :
    0 < ([[exMsg]] : List (List Msg)).length ∧
    (make_checkpoint_heap ['c'] none 0).messagesRef = 0 ∧
    readMsgs (writeList [[exMsg]] 0 [exMsg, exMsg]) (make_checkpoint_heap ['c'] none 0) = [exMsg, exMsg] ∧
    readMsgs (writeList (step0Alloc [[exMsg]] 0 exMsg).1 0 [exMsg, exMsg])
        (make_checkpoint_heap ['c'] none (step0Alloc [[exMsg]] 0 exMsg).2) =
      readMsgs (step0Alloc [[exMsg]] 0 exMsg).1
        (make_checkpoint_heap ['c'] none (step0Alloc [[exMsg]] 0 exMsg).2) := by
  refine ⟨by decide, ?_, ?_, ?_⟩
  · exact (c6_builder_aliases ['c'] none 0 [[exMsg]] [exMsg, exMsg] exMsg (by decide)).1
  · exact (c6_builder_aliases ['c'] none 0 [[exMsg]] [exMsg, exMsg] exMsg (by decide)).2.1
  · exact (c6_builder_aliases ['c'] none 0 [[exMsg]] [exMsg, exMsg] exMsg (by decide)).2.2

/-- C1 counterexample: for the non-empty input `"a a"` the streamer emits
the chunks `["a", "a"]` — the non-final repeated word also loses its
trailing space because the source compares each word with the *value*
`words[-1]` — so the concatenation `"aa"` differs from the input text. -/
theorem c1_counterexample :
    tokenChunksOf (streamSuccess (exCtx ['a', ' ', 'a']) exRun [exGenesis]) =
      [['a'], ['a']] ∧
    (tokenChunksOf (streamSuccess (exCtx ['a', ' ', 'a']) exRun [exGenesis])).flatten ≠
      ['a', ' ', 'a'] := by
  constructor
  · rw [tokenChunksOf_streamSuccess]
    decide
  · rw [tokenChunksOf_streamSuccess]
    decide

/-- C1 amended: for every input text that is the single-space join of a
non-empty list of non-empty whitespace-free words in which no word before
the last equals the last word, the streamer emits one chunk per word, each
chunk being the word followed by a single trailing space except the final
word which gets none, and the concatenation of the chunks equals the input
text exactly. -/
theorem c1_chunks_reproduce_wellspaced_input (ws : List (List Char))
    (ctx : Ctx) (run : Run) (latest : Checkpoint) (rest : List Checkpoint)
    (h1 : ws ≠ [])
    (h2 : ∀ w ∈ ws, w ≠ [] ∧ ∀ c ∈ w, isWs c = false)
    (h3 : ∀ w ∈ ws.dropLast, w ≠ ws.getLastD [])
    (h4 : ctx.text = joinWords ws) :
    tokenChunksOf (streamSuccess ctx run (latest :: rest)) =
      ws.dropLast.map (fun w => w ++ [' ']) ++ [ws.getLastD []] ∧
    (tokenChunksOf (streamSuccess ctx run (latest :: rest))).flatten =
      ctx.text := by
  have hw : echoWords ctx.text = ws := by
    rw [h4]; exact echoWords_joinWords ws h1 h2
  have hchunks : echoChunks ctx.text =
      ws.dropLast.map (fun w => w ++ [' ']) ++ [ws.getLastD []] := by
    unfold echoChunks
    rw [hw]
    exact chunks_of_distinct_last ws h1 h3
  refine ⟨?_, ?_⟩
  · rw [tokenChunksOf_streamSuccess, hchunks]
  · rw [tokenChunksOf_streamSuccess, hchunks]
    rcases List.eq_nil_or_concat ws with rfl | ⟨xs, z, rfl⟩
    · exact absurd rfl h1
    · rw [List.concat_eq_append] at *
      rw [List.getLastD_concat, List.dropLast_concat]
      rw [flatten_chunks xs z, h4]

/-- Witness for C1 amended at the concrete input `"ab c"`. -/
theorem c1_witness :
    ([['a', 'b'], ['c']] : List (List Char)) ≠ [] ∧
    (∀ w ∈ ([['a', 'b'], ['c']] : List (List Char)), w ≠ [] ∧ ∀ c ∈ w, isWs c = false) ∧
    (∀ w ∈ ([['a', 'b'], ['c']] : List (List Char)).dropLast,
      w ≠ ([['a', 'b'], ['c']] : List (List Char)).getLastD []) ∧
    (exCtx ['a', 'b', ' ', 'c']).text = joinWords [['a', 'b'], ['c']] ∧
    tokenChunksOf (streamSuccess (exCtx ['a', 'b', ' ', 'c']) exRun [exGenesis]) =
      ([['a', 'b'], ['c']] : List (List Char)).dropLast.map (fun w => w ++ [' ']) ++
        [([['a', 'b'], ['c']] : List (List Char)).getLastD []] ∧
    (tokenChunksOf (streamSuccess (exCtx ['a', 'b', ' ', 'c']) exRun [exGenesis])).flatten =
      (exCtx ['a', 'b', ' ', 'c']).text := by
  refine ⟨by decide, by decide, by decide, by decide, ?_, ?_⟩
  · exact (c1_chunks_reproduce_wellspaced_input [['a', 'b'], ['c']]
      (exCtx ['a', 'b', ' ', 'c']) exRun exGenesis []
      (by decide) (by decide) (by decide) (by decide)).1
  · exact (c1_chunks_reproduce_wellspaced_input [['a', 'b'], ['c']]
      (exCtx ['a', 'b', ' ', 'c']) exRun exGenesis []
      (by decide) (by decide) (by decide) (by decide)).2

/-- C3 counterexample: for the double-spaced input `"hi  yo"` the stream
completes successfully but the assistant message's final content is
`"hi yo"` (the concatenation of the chunks), not the input text. -/
theorem c3_counterexample :
    (streamSuccess (exCtx ['h', 'i', ' ', ' ', 'y', 'o']) exRun [exGenesis]).run.status = "success" ∧
    (((streamSuccess (exCtx ['h', 'i', ' ', ' ', 'y', 'o']) exRun [exGenesis]).checkpoints.headD default).messages.getLastD default).content =
      ['h', 'i', ' ', 'y', 'o'] ∧
    (['h', 'i', ' ', 'y', 'o'] : List Char) ≠ ['h', 'i', ' ', ' ', 'y', 'o'] := by
  refine ⟨?_, ?_, by decide⟩
  · rw [streamSuccess_run]
    rfl
  · rw [streamSuccess_checkpoints]
    rw [show ((finalHeadCkpt (exCtx ['h', 'i', ' ', ' ', 'y', 'o']) ((exGenesis :: []).headD default) :: mkStep0 (exCtx ['h', 'i', ' ', ' ', 'y', 'o']) ((exGenesis :: []).headD default) :: exGenesis :: []).headD default) = finalHeadCkpt (exCtx ['h', 'i', ' ', ' ', 'y', 'o']) exGenesis from rfl]
    rw [finalHeadCkpt_messages]
    decide

/-- C3 amended: after a successful stream over a thread whose latest
checkpoint had `n` messages, the run status is `success`, the store's new
latest checkpoint carries the old messages plus exactly one user message
(content = the input text) and one assistant message, so `n + 2` in total;
the assistant message's final content equals the concatenation of the
emitted token chunks (the input text only when the input is well-spaced;
the placeholder phrase for empty input), and its usage metadata has
`completion_tokens` equal to the number of token chunks streamed,
`prompt_tokens` fixed at 5, and `total_tokens` their sum. -/
theorem c3_success_postcondition (ctx : Ctx) (run : Run) (latest : Checkpoint)
    (rest : List Checkpoint) :
    (streamSuccess ctx run (latest :: rest)).run.status = "success" ∧
    ((streamSuccess ctx run (latest :: rest)).checkpoints.headD default).messages =
      latest.messages ++ [make_msg "user" ctx.text ctx.t0, finalAssistantMsg ctx] ∧
    ((streamSuccess ctx run (latest :: rest)).checkpoints.headD default).messages.length =
      latest.messages.length + 2 ∧
    (make_msg "user" ctx.text ctx.t0).role = "user" ∧
    (make_msg "user" ctx.text ctx.t0).content = ctx.text ∧
    (finalAssistantMsg ctx).role = "assistant" ∧
    (finalAssistantMsg ctx).content = (tokenChunksOf (streamSuccess ctx run (latest :: rest))).flatten ∧
    (finalAssistantMsg ctx).response_metadata =
      some ⟨5, (tokenChunksOf (streamSuccess ctx run (latest :: rest))).length,
        5 + (tokenChunksOf (streamSuccess ctx run (latest :: rest))).length⟩ := by
  have hhead : (streamSuccess ctx run (latest :: rest)).checkpoints.headD default =
      finalHeadCkpt ctx latest := by
    rw [streamSuccess_checkpoints]; rfl
  refine ⟨?_, ?_, ?_, rfl, rfl, rfl, ?_, ?_⟩
  · rw [streamSuccess_run]; rfl
  · rw [hhead, finalHeadCkpt_messages]
  · rw [hhead, finalHeadCkpt_messages]
    simp
  · rw [tokenChunksOf_streamSuccess]
    rfl
  · rw [tokenChunksOf_streamSuccess, echoChunks_length]
    rfl

/-- C2: for every thread created by `create_thread` (genesis checkpoint
with a non-empty UUID id and null parent) and any sequence of runs, the
stored checkpoint list has exactly one root (null `parent_checkpoint`),
every non-root checkpoint's parent id matches a previously registered
checkpoint's id, and each run extends the chain by a step-0 checkpoint
whose parent is the previous latest checkpoint and a step-1 checkpoint
whose parent is step-0. -/
theorem c2_checkpoint_chain_invariant (gid tid : List Char) (t : Nat)
    (runs : List (Ctx × Run)) (ctx : Ctx) (r : Run) (latest : Checkpoint)
    (rest : List Checkpoint) (hg : gid ≠ [])
    (hl : latest.checkpoint.checkpoint_id ≠ []) :
    StoreInv (checkpointsAfterRuns runs [create_thread_checkpoint gid tid t]) ∧
    checkpointsAfterRun ctx r (latest :: rest) =
      finalHeadCkpt ctx latest :: mkStep0 ctx latest :: latest :: rest ∧
    (mkStep0 ctx latest).parent_checkpoint =
      some ⟨ctx.thread_id, latest.checkpoint.checkpoint_id⟩ ∧
    (finalHeadCkpt ctx latest).parent_checkpoint =
      some ⟨ctx.thread_id, (mkStep0 ctx latest).checkpoint.checkpoint_id⟩ := by
  refine ⟨?_, ?_, mkStep0_parent ctx latest hl, ?_⟩
  · exact StoreInv_afterRuns runs _ (StoreInv_genesis gid tid t hg) (by simp)
  · unfold checkpointsAfterRun
    rw [streamSuccess_checkpoints]
    rfl
  · rw [finalHeadCkpt_parent, mkStep1_parent]

/-- Witness for C2 at a concrete genesis and one concrete prior run. -/
theorem c2_witness :
    (['g'] : List Char) ≠ [] ∧
    exGenesis.checkpoint.checkpoint_id ≠ [] ∧
    (StoreInv (checkpointsAfterRuns [(exCtx ['h', 'i'], exRun)]
        [create_thread_checkpoint ['g'] ['t'] 0]) ∧
      checkpointsAfterRun (exCtx ['y', 'o']) exRun (exGenesis :: []) =
        finalHeadCkpt (exCtx ['y', 'o']) exGenesis ::
          mkStep0 (exCtx ['y', 'o']) exGenesis :: exGenesis :: [] ∧
      (mkStep0 (exCtx ['y', 'o']) exGenesis).parent_checkpoint =
        some ⟨(exCtx ['y', 'o']).thread_id, exGenesis.checkpoint.checkpoint_id⟩ ∧
      (finalHeadCkpt (exCtx ['y', 'o']) exGenesis).parent_checkpoint =
        some ⟨(exCtx ['y', 'o']).thread_id,
          (mkStep0 (exCtx ['y', 'o']) exGenesis).checkpoint.checkpoint_id⟩) := by
  refine ⟨by decide, by decide, ?_⟩
  exact c2_checkpoint_chain_invariant ['g'] ['t'] 0 [(exCtx ['h', 'i'], exRun)]
    (exCtx ['y', 'o']) exRun exGenesis [] (by decide) (by decide)

/-- C4: within one stream the frame ids are exactly `1, 2, ..., n` in
order — strictly increasing from 1 with no gaps — on the success path and
on the error path (the error and `stream_end` frames continue the same
counter), and the leading keepalive comment frame carries no id. -/
theorem c4_event_ids_monotone (ctx : Ctx) (run : Run) (latest : Checkpoint)
    (rest : List Checkpoint) (f : Nat) (msg : List Char)
    (hf : f < 9 + (echoChunks ctx.text).length) :
    IdsFromOne (streamSuccess ctx run (latest :: rest)) ∧
    (streamSuccess ctx run (latest :: rest)).frames.head? =
      some ⟨none, ":", Payload.keepalive⟩ ∧
    IdsFromOne (streamFault ctx run (latest :: rest) f msg) ∧
    (1 ≤ f → (streamFault ctx run (latest :: rest) f msg).frames.head? =
      some ⟨none, ":", Payload.keepalive⟩) := by
  refine ⟨IdInv_IdsFromOne _ (IdInv_streamSuccess ctx run (latest :: rest)),
    streamSuccess_head_keepalive ctx run (latest :: rest),
    IdsFromOne_errorHandler _ _ _ (IdInv_prefixState ctx run (latest :: rest) f),
    fun hf1 => errorHandler_head _ _ _
      (prefixState_head_keepalive ctx run (latest :: rest) f hf1)⟩

/-- Witness for C4 at input `"hi"` with a fault before the fourth action. -/
theorem c4_witness :
    3 < 9 + (echoChunks (exCtx ['h', 'i']).text).length ∧
    IdsFromOne (streamSuccess (exCtx ['h', 'i']) exRun [exGenesis]) ∧
    (streamSuccess (exCtx ['h', 'i']) exRun [exGenesis]).frames.head? =
      some ⟨none, ":", Payload.keepalive⟩ ∧
    IdsFromOne (streamFault (exCtx ['h', 'i']) exRun [exGenesis] 3 ['b']) ∧
    (streamFault (exCtx ['h', 'i']) exRun [exGenesis] 3 ['b']).frames.head? =
      some ⟨none, ":", Payload.keepalive⟩ := by
  have h := c4_event_ids_monotone (exCtx ['h', 'i']) exRun exGenesis [] 3 ['b']
    (by decide)
  exact ⟨by decide, h.1, h.2.1, h.2.2.1, h.2.2.2 (by decide)⟩

/-- C7 counterexample: a fault injected after the finalize step (here
before the replace-run emission, fault point 7 for the one-word input
`"hi"`) still produces an errored stream — the trailing frames are the
`error` and `stream_end` pair — but the run's status is already
`"success"`, so the claim that a faulted stream never has a success status
fails. -/
theorem c7_counterexample :
    (streamFault (exCtx ['h', 'i']) exRun [exGenesis] 7 ['b']).run.status =
      "success" ∧
    ((streamFault (exCtx ['h', 'i']) exRun [exGenesis] 7 ['b']).frames.map
      Frame.event).count "error" = 1 ∧
    ((streamFault (exCtx ['h', 'i']) exRun [exGenesis] 7 ['b']).frames.getLastD
      default).event = "stream_end" := by
  refine ⟨by decide, by decide, by decide⟩

/-- C7 amended: whenever a non-disconnect fault interrupts the stream, the
streamer emits exactly two further frames — an `error` event with payload
`{run_id, message}` followed by a `stream_end` event with payload
`{run_id}` and no `final_checkpoint` — both continuing the id counter; the
error path leaves the run record exactly as it was at fault time, so the
status is not set to `success` by the error path and, for any fault that
strikes before the finalize step, the run is entirely untouched (still
`running`); only a fault landing after finalization leaves the
already-set `success` status behind. -/
theorem c7_fault_two_frames_run_untouched (ctx : Ctx) (run : Run)
    (latest : Checkpoint) (rest : List Checkpoint) (f : Nat)
    (msg : List Char) (hf : f < 9 + (echoChunks ctx.text).length) :
    (streamFault ctx run (latest :: rest) f msg).frames =
      (prefixState ctx run (latest :: rest) f).frames ++
        [⟨some (prefixState ctx run (latest :: rest) f).nextId, "error",
           Payload.errorInfo ctx.run_id msg⟩,
         ⟨some ((prefixState ctx run (latest :: rest) f).nextId + 1),
           "stream_end", Payload.streamEndErr ctx.run_id⟩] ∧
    (streamFault ctx run (latest :: rest) f msg).run =
      (prefixState ctx run (latest :: rest) f).run ∧
    (f ≤ 5 + (echoChunks ctx.text).length →
      (streamFault ctx run (latest :: rest) f msg).run = run) := by
  refine ⟨errorHandler_frames _ _ _, rfl, fun hle => ?_⟩
  show (errorHandler ctx.run_id msg (prefixState ctx run (latest :: rest) f)).run = run
  rw [errorHandler_run]
  exact prefixState_run ctx run (latest :: rest) f hle

/-- Witness for C7 amended: input `"hi"`, fault before the fourth action. -/
theorem c7_witness :
    3 < 9 + (echoChunks (exCtx ['h', 'i']).text).length ∧
    (streamFault (exCtx ['h', 'i']) exRun [exGenesis] 3 ['b']).frames =
      (prefixState (exCtx ['h', 'i']) exRun [exGenesis] 3).frames ++
        [⟨some (prefixState (exCtx ['h', 'i']) exRun [exGenesis] 3).nextId,
           "error", Payload.errorInfo (exCtx ['h', 'i']).run_id ['b']⟩,
         ⟨some ((prefixState (exCtx ['h', 'i']) exRun [exGenesis] 3).nextId + 1),
           "stream_end", Payload.streamEndErr (exCtx ['h', 'i']).run_id⟩] ∧
    (streamFault (exCtx ['h', 'i']) exRun [exGenesis] 3 ['b']).run = exRun := by
  have h := c7_fault_two_frames_run_untouched (exCtx ['h', 'i']) exRun exGenesis
    [] 3 ['b'] (by decide)
  exact ⟨by decide, h.1, h.2.2 (by decide)⟩

/-- C9: if the client disconnects mid-stream (before finalization), the
streamer emits no further events — in particular no `error` and no
`stream_end` frame ever appears — and does not finalize the run: the run
record is untouched and its status remains `"running"`. -/
theorem c9_disconnect_silent_abort (ctx : Ctx) (run : Run)
    (latest : Checkpoint) (rest : List Checkpoint) (f : Nat)
    (hf : f ≤ 5 + (echoChunks ctx.text).length)
    (hrun : run.status = "running") :
    (streamDisconnect ctx run (latest :: rest) f).run = run ∧
    (streamDisconnect ctx run (latest :: rest) f).run.status = "running" ∧
    NoTerminalFrames (streamDisconnect ctx run (latest :: rest) f) := by
  have h1 : (streamDisconnect ctx run (latest :: rest) f).run = run :=
    prefixState_run ctx run (latest :: rest) f hf
  refine ⟨h1, ?_, prefixState_NTF ctx run (latest :: rest) f hf⟩
  rw [h1, hrun]

/-- Witness for C9: input `"hi"`, disconnect before the fourth action. -/
theorem c9_witness :
    3 ≤ 5 + (echoChunks (exCtx ['h', 'i']).text).length ∧
    exRun.status = "running" ∧
    (streamDisconnect (exCtx ['h', 'i']) exRun [exGenesis] 3).run = exRun ∧
    (streamDisconnect (exCtx ['h', 'i']) exRun [exGenesis] 3).run.status =
      "running" ∧
    NoTerminalFrames (streamDisconnect (exCtx ['h', 'i']) exRun [exGenesis] 3) := by
  have h := c9_disconnect_silent_abort (exCtx ['h', 'i']) exRun exGenesis [] 3
    (by decide) (by decide)
  exact ⟨by decide, by decide, h.1, h.2.1, h.2.2⟩
